import Mathlib

/-!
Verification of the `problem-utils` judging library against its
natural-language specification.

The TypeScript sources are shallowly embedded:

* Source text is `List Char` (the concrete inputs are ASCII, so JS UTF-16
  indices coincide with list positions).
* The JavaScript regular expressions appearing in the grammar catalog
  (`language.ts`) are of four fixed shapes; they are embedded as the
  inductive types `OpenPat` / `ClosePat` whose `exec` functions implement
  the semantics of exactly those regex shapes (leftmost match at or after
  `lastIndex`, greedy with backtracking inside one start position).
* The `while` loops of `removeCommentsInSourceCode` and of the forbidden
  literal scan in `judgeByStaticAnalysis` are embedded with explicit fuel;
  a fuel-exhausted run (`none` / the unreachable base case) models a
  non-terminating JS loop.
* File-system reads, process spawning and regex matching of arbitrary
  user-supplied patterns are modelled as oracle inputs carried in a
  `JudgeWorld` record; everything downstream of those observations is
  embedded concretely from the source.
-/

namespace JudgeUtils

/-- The apostrophe character, written numerically. -/
def aposChar : Char := Char.ofNat 39

/-- The backtick character, written numerically. -/
def backtickChar : Char := Char.ofNat 96

/-- The opening curly brace character, written numerically. -/
def lbraceChar : Char := Char.ofNat 123

/-- The closing curly brace character, written numerically. -/
def rbraceChar : Char := Char.ofNat 125

/-- The Unicode replacement character U+FFFD produced when decoding binary
data as UTF-8; `encodeFileForTestCaseResult` and `judgeByStaticAnalysis`
both use `text.includes(replacement)` as the binary-file test. -/
def replacementChar : Char := Char.ofNat 65533

/-- JS `s.slice(a, b)` for `0 ≤ a ≤ b` (the only way the sources call it). -/
def slice (s : List Char) (a b : Nat) : List Char :=
  (s.drop a).take (b - a)

/-! ## Tokenizer: `removeCommentsInSourceCode.ts`

The grammar catalog uses exactly these regex shapes:

* string/comment open patterns: a plain nonempty literal (a quote, a
  triple quote, …) or `\n?[ \t]*BODY` with a nonempty literal `BODY`
  (BODY being a comment opener such as `//`, `#`, `<!--`, …);
* close patterns: a plain nonempty literal (a comment closer such as
  `*/`, `=end`, `-->`, …), a string close `(?<!\\)(?:\\{2})*Q` with `Q` a
  nonempty quote literal, or the default `(?=\n)` lookahead used when a
  comment rule has no `close`.
-/

/-- Number of leading space/tab characters, the greedy extent of `[ \t]*`. -/
def countWs : List Char → Nat
  | [] => 0
  | c :: r => if c = ' ' ∨ c = '\t' then countWs r + 1 else 0

/-- Number of leading occurrences of `a`. -/
def countRun (a : Char) : List Char → Nat
  | [] => 0
  | c :: r => if c = a then countRun a r + 1 else 0

/-- Match attempt for a plain literal regex at the start of `u`:
returns the matched length. -/
def litTry (pat : List Char) (u : List Char) : Option Nat :=
  if pat.isPrefixOf u then some pat.length else none

/-- Backtracking for `[ \t]*BODY` at the start of `u1`: the greedy engine
first consumes `n` spaces/tabs, then requires `body`, retrying with fewer
spaces on failure. -/
def tryWsBodyAux (body u1 : List Char) : Nat → Option Nat
  | 0 => if body.isPrefixOf u1 then some body.length else none
  | n + 1 =>
    if body.isPrefixOf (u1.drop (n + 1)) then some (n + 1 + body.length)
    else tryWsBodyAux body u1 n

/-- Match attempt for `[ \t]*BODY` at the start of `u1`. -/
def tryWsBody (body u1 : List Char) : Option Nat :=
  tryWsBodyAux body u1 (countWs u1)

/-- Match attempt for `\n?[ \t]*BODY` at the start of `u`: greedy `\n?`
first consumes a newline when present, falling back to the empty
alternative when the rest fails. -/
def tryCommentOpen (body : List Char) (u : List Char) : Option Nat :=
  match u with
  | '\n' :: r =>
    match tryWsBody body r with
    | some n => some (n + 1)
    | none => tryWsBody body ('\n' :: r)
  | _ => tryWsBody body u

/-- Backtracking for `(?:\\{2})*Q` at the start of `u`: try `p` backslash
pairs (greedy, descending) followed by the quote literal `qs`. -/
def tryPairsQs (qs u : List Char) : Nat → Option Nat
  | 0 => if qs.isPrefixOf u then some qs.length else none
  | p + 1 =>
    if qs.isPrefixOf (u.drop (2 * (p + 1))) then some (2 * (p + 1) + qs.length)
    else tryPairsQs qs u p

/-- Match attempt for `(?<!\\)(?:\\{2})*Q` at the start of `u`, where
`prev` is the character preceding the attempted start position. -/
def tryStringClose (qs : List Char) (prev : Option Char) (u : List Char) : Option Nat :=
  if prev = some '\\' then none
  else tryPairsQs qs u (countRun '\\' u / 2)

/-- Match attempt for the lookahead `(?=\n)`: zero-length match before a
newline. -/
def nlTry : List Char → Option Nat
  | '\n' :: _ => some 0
  | _ => none

/-- `re.lastIndex = j; re.exec(...)`: try `t` at each start position of the
suffix `u` (whose absolute position is `j`), returning the first
`(index, length)` match. -/
def scanExec (t : List Char → Option Nat) : List Char → Nat → Option (Nat × Nat)
  | [], j => (t []).map (fun n => (j, n))
  | c :: r, j =>
    match t (c :: r) with
    | some n => some (j, n)
    | none => scanExec t r (j + 1)

/-- Like `scanExec` but also threads the previous character, needed by the
`(?<!\\)` lookbehind of string close patterns. -/
def scanExecP (t : Option Char → List Char → Option Nat) :
    Option Char → List Char → Nat → Option (Nat × Nat)
  | prev, [], j => (t prev []).map (fun n => (j, n))
  | prev, c :: r, j =>
    match t prev (c :: r) with
    | some n => some (j, n)
    | none => scanExecP t (some c) r (j + 1)

/-- An `open` pattern of a grammar rule (always a nonempty literal or
`\n?[ \t]*BODY` with nonempty `BODY` in the catalog). -/
inductive OpenPat where
  | literalPat (c : Char) (cs : List Char)
  | commentOpenPat (c : Char) (cs : List Char)
deriving DecidableEq

/-- A `close` pattern of a grammar rule. -/
inductive ClosePat where
  | literalPat (c : Char) (cs : List Char)
  | stringClosePat (c : Char) (cs : List Char)
  | newlineLookahead
deriving DecidableEq

/-- First match of an open pattern in `s` at or after position `i`. -/
def OpenPat.exec : OpenPat → List Char → Nat → Option (Nat × Nat)
  | .literalPat c cs, s, i => scanExec (litTry (c :: cs)) (s.drop i) i
  | .commentOpenPat c cs, s, i => scanExec (tryCommentOpen (c :: cs)) (s.drop i) i

/-- The character just before position `i`, for the `(?<!\\)` lookbehind. -/
def prevCharAt (s : List Char) (i : Nat) : Option Char :=
  if i = 0 then none else (s.drop (i - 1)).head?

/-- First match of a close pattern in `s` at or after position `i`. -/
def ClosePat.exec : ClosePat → List Char → Nat → Option (Nat × Nat)
  | .literalPat c cs, s, i => scanExec (litTry (c :: cs)) (s.drop i) i
  | .stringClosePat c cs, s, i =>
    scanExecP (tryStringClose (c :: cs)) (prevCharAt s i) (s.drop i) i
  | .newlineLookahead, s, i => scanExec nlTry (s.drop i) i

/-- A string rule `{ open, close }` of a grammar. -/
structure StringRule where
  openPat : OpenPat
  closePat : ClosePat
deriving DecidableEq

/-- A comment rule `{ open, close? }` of a grammar. -/
structure CommentRule where
  openPat : OpenPat
  closePat : Option ClosePat := none
deriving DecidableEq

/-- `LanguageDefinition['grammer']` (source spelling kept). -/
structure Grammer where
  strings : List StringRule := []
  comments : List CommentRule := []
deriving DecidableEq

/-- One entry of the concatenated rule list
`[...comments.map(isComment: true), ...strings.map(isComment: false)]`. -/
structure ScanRule where
  openPat : OpenPat
  closePat : Option ClosePat
  isComment : Bool

/-- The concatenated rule list iterated by the tokenizer's inner `for`. -/
def rulesOf (g : Grammer) : List ScanRule :=
  g.comments.map (fun r => ⟨r.openPat, r.closePat, true⟩)
    ++ g.strings.map (fun r => ⟨r.openPat, some r.closePat, false⟩)

/-- The tokenizer's `first` record: earliest open match plus its rule's
close pattern and kind. -/
structure Sel where
  idx : Nat
  len : Nat
  closePat : Option ClosePat
  isComment : Bool

/-- The tokenizer's inner `for` loop: keep the match with the smallest
start, an earlier-listed rule winning ties (`match.index < first.match.index`
is strict). -/
def selectFirstAux (s : List Char) (i : Nat) : Option Sel → List ScanRule → Option Sel
  | acc, [] => acc
  | acc, r :: rest =>
    selectFirstAux s i
      (match r.openPat.exec s i with
        | some jl =>
          match acc with
          | none => some ⟨jl.1, jl.2, r.closePat, r.isComment⟩
          | some f => if jl.1 < f.idx then some ⟨jl.1, jl.2, r.closePat, r.isComment⟩ else some f
        | none => acc)
      rest

/-- Earliest rule match at or after `i`, `none` when no rule matches. -/
def selectFirst (g : Grammer) (s : List Char) (i : Nat) : Option Sel :=
  selectFirstAux s i none (rulesOf g)

/-- `lastIndex = match ? match.index + match[0].length : sourceCode.length`
for the close search starting at `fromIdx`. -/
def closeAdvance (cp : ClosePat) (s : List Char) (fromIdx : Nat) : Nat :=
  match cp.exec s fromIdx with
  | some jl => jl.1 + jl.2
  | none => s.length

/-- The tokenizer's `while (lastIndex < sourceCode.length)` loop,
instrumented: returns the concatenation of the slices pushed from position
`i` onward together with the `isComment` flag of each selected rule.  The
fuel only bounds the iteration count; every open pattern representable in
`OpenPat` matches at least one character, so `s.length + 1 - i` iterations
always suffice and the fuel-exhausted base case is unreachable from the
top-level call. -/
def scanLoop (g : Grammer) (s : List Char) : Nat → Nat → List Char × List Bool
  | 0, _ => ([], [])
  | fuel + 1, i =>
    if i < s.length then
      match selectFirst g s i with
      | none => (slice s i s.length, [])
      | some sel =>
        let cp := sel.closePat.getD ClosePat.newlineLookahead
        let newLast := closeAdvance cp s (sel.idx + sel.len)
        let pre := slice s i sel.idx
        let kept := if sel.isComment then [] else slice s sel.idx newLast
        let rest := scanLoop g s fuel newLast
        (pre ++ kept ++ rest.1, sel.isComment :: rest.2)
    else ([], [])

/-- `removeCommentsInSourceCode`, instrumented with the selected rule
kinds. -/
def removeCommentsInSourceCodeT (g : Grammer) (s : List Char) : List Char × List Bool :=
  if g.comments.isEmpty then (s, [])
  else scanLoop g s (s.length + 1) 0

/-- `removeCommentsInSourceCode(grammer, sourceCode)`. -/
def removeCommentsInSourceCode (g : Grammer) (s : List Char) : List Char :=
  (removeCommentsInSourceCodeT g s).1

/-! ### The grammar catalog (`language.ts`) -/

/-- `cLikeGrammer`: strings `'…'` and `"…"`, comments `/*…*/` and `//…`. -/
def cLikeGrammer : Grammer :=
  { strings :=
      [⟨.literalPat aposChar [], .stringClosePat aposChar []⟩,
       ⟨.literalPat '"' [], .stringClosePat '"' []⟩],
    comments :=
      [⟨.commentOpenPat '/' ['*'], some (.literalPat '*' ['/'])⟩,
       ⟨.commentOpenPat '/' ['/'], none⟩] }

/-- `javaScriptLikeGrammer`: `cLikeGrammer` plus backtick strings. -/
def javaScriptLikeGrammer : Grammer :=
  { strings :=
      [⟨.literalPat aposChar [], .stringClosePat aposChar []⟩,
       ⟨.literalPat '"' [], .stringClosePat '"' []⟩,
       ⟨.literalPat backtickChar [], .stringClosePat backtickChar []⟩],
    comments :=
      [⟨.commentOpenPat '/' ['*'], some (.literalPat '*' ['/'])⟩,
       ⟨.commentOpenPat '/' ['/'], none⟩] }

/-- The Haskell grammar entry. -/
def haskellGrammer : Grammer :=
  { strings :=
      [⟨.literalPat aposChar [], .stringClosePat aposChar []⟩,
       ⟨.literalPat '"' [], .stringClosePat '"' []⟩],
    comments :=
      [⟨.commentOpenPat lbraceChar ['-'], some (.literalPat '-' [rbraceChar])⟩,
       ⟨.commentOpenPat '-' ['-'], none⟩] }

/-- The PHP grammar entry. -/
def phpGrammer : Grammer :=
  { strings :=
      [⟨.literalPat aposChar [], .stringClosePat aposChar []⟩,
       ⟨.literalPat '"' [], .stringClosePat '"' []⟩],
    comments :=
      [⟨.commentOpenPat '/' ['*'], some (.literalPat '*' ['/'])⟩,
       ⟨.commentOpenPat '/' ['/'], none⟩,
       ⟨.commentOpenPat '#' [], none⟩] }

/-- The Python grammar entry. -/
def pythonGrammer : Grammer :=
  { strings :=
      [⟨.literalPat aposChar [aposChar, aposChar], .stringClosePat aposChar [aposChar, aposChar]⟩,
       ⟨.literalPat '"' ['"', '"'], .stringClosePat '"' ['"', '"']⟩,
       ⟨.literalPat aposChar [], .stringClosePat aposChar []⟩,
       ⟨.literalPat '"' [], .stringClosePat '"' []⟩],
    comments :=
      [⟨.commentOpenPat aposChar [aposChar, aposChar], some (.literalPat aposChar [aposChar, aposChar])⟩,
       ⟨.commentOpenPat '"' ['"', '"'], some (.literalPat '"' ['"', '"'])⟩,
       ⟨.commentOpenPat '#' [], none⟩] }

/-- The Ruby grammar entry. -/
def rubyGrammer : Grammer :=
  { strings :=
      [⟨.literalPat aposChar [], .stringClosePat aposChar []⟩,
       ⟨.literalPat '"' [], .stringClosePat '"' []⟩],
    comments :=
      [⟨.commentOpenPat '=' ['b', 'e', 'g', 'i', 'n'], some (.literalPat '=' ['e', 'n', 'd'])⟩,
       ⟨.commentOpenPat '#' [], none⟩] }

/-- The HTML grammar entry. -/
def htmlGrammer : Grammer :=
  { strings :=
      [⟨.literalPat aposChar [], .stringClosePat aposChar []⟩,
       ⟨.literalPat '"' [], .stringClosePat '"' []⟩],
    comments := [⟨.commentOpenPat '<' ['!', '-', '-'], some (.literalPat '-' ['-', '>'])⟩] }

/-- The CSS grammar entry. -/
def cssGrammer : Grammer :=
  { strings :=
      [⟨.literalPat aposChar [], .stringClosePat aposChar []⟩,
       ⟨.literalPat '"' [], .stringClosePat '"' []⟩],
    comments := [⟨.commentOpenPat '/' ['*'], some (.literalPat '*' ['/'])⟩] }

/-- The JSP grammar entry. -/
def jspGrammer : Grammer :=
  { strings :=
      [⟨.literalPat aposChar [], .stringClosePat aposChar []⟩,
       ⟨.literalPat '"' [], .stringClosePat '"' []⟩],
    comments :=
      [⟨.commentOpenPat '<' ['!', '-', '-'], some (.literalPat '-' ['-', '>'])⟩,
       ⟨.commentOpenPat '<' ['%', '-', '-'], some (.literalPat '-' ['-', '%', '>'])⟩,
       ⟨.commentOpenPat '/' ['*'], some (.literalPat '*' ['/'])⟩,
       ⟨.commentOpenPat '/' ['/'], none⟩] }

/-! ## Language catalog (`language.ts`)

Only the fields the verified claims consume are carried: the extension
list, the presence of `prebuild` / `buildCommand` (the command vectors
themselves are spawned through oracle observations), and the grammar. -/

/-- One entry of `languageIdToDefinition`. -/
structure LanguageDefinition where
  fileExtensions : List (List Char)
  hasPrebuild : Bool := false
  hasBuildCommand : Bool := false
  grammer : Option Grammer := none
deriving DecidableEq

/-- `Object.values(languageIdToDefinition)` in insertion order:
c, cpp, csharp, dart, java, javascript, haskell, php, python, ruby,
rust, zig, typescript, text, html, css, jsp. -/
def languageIdToDefinition : List LanguageDefinition :=
  [{ fileExtensions := [".c".toList], hasBuildCommand := true, grammer := some cLikeGrammer },
   { fileExtensions := [".cpp".toList], hasBuildCommand := true, grammer := some cLikeGrammer },
   { fileExtensions := [".cs".toList], hasPrebuild := true, hasBuildCommand := true,
     grammer := some cLikeGrammer },
   { fileExtensions := [".dart".toList], hasBuildCommand := true, grammer := some cLikeGrammer },
   { fileExtensions := [".java".toList], hasPrebuild := true, hasBuildCommand := true,
     grammer := some cLikeGrammer },
   { fileExtensions := [".js".toList, ".cjs".toList, ".mjs".toList],
     grammer := some javaScriptLikeGrammer },
   { fileExtensions := [".hs".toList], hasBuildCommand := true, grammer := some haskellGrammer },
   { fileExtensions := [".php".toList], grammer := some phpGrammer },
   { fileExtensions := [".py".toList], grammer := some pythonGrammer },
   { fileExtensions := [".rb".toList], hasBuildCommand := true, grammer := some rubyGrammer },
   { fileExtensions := [".rs".toList], hasBuildCommand := true, grammer := some cLikeGrammer },
   { fileExtensions := [".zig".toList], hasBuildCommand := true, grammer := some cLikeGrammer },
   { fileExtensions := [".ts".toList, ".cts".toList, ".mts".toList],
     grammer := some javaScriptLikeGrammer },
   { fileExtensions := [".txt".toList] },
   { fileExtensions := [".html".toList], grammer := some htmlGrammer },
   { fileExtensions := [".css".toList], grammer := some cssGrammer },
   { fileExtensions := [".jsp".toList], grammer := some jspGrammer }]

/-- `findLanguageDefinitionByPath`: first catalog entry one of whose
extensions is a suffix of the path (`path.endsWith(ext)`). -/
def findLanguageDefinitionByPath (p : List Char) : Option LanguageDefinition :=
  languageIdToDefinition.find? (fun d => d.fileExtensions.any (fun e => e.isSuffixOf p))

/-! ## Static analyzer (`judgeByStaticAnalysis.ts`) -/

/-- A directory entry of the recursive submission-root listing, with its
decoded text (the `fs` read is an oracle observation). -/
structure DirEnt where
  name : List Char
  isFile : Bool := true
  text : List Char := []

/-- `text.includes(replacement)`: the binary-file test. -/
def isBinaryText (t : List Char) : Bool :=
  t.contains replacementChar

/-- An entry of `sourceCodeWithoutCommentFiles`. -/
structure ScannedFile where
  path : List Char
  data : List Char
deriving DecidableEq

/-- The file-collection phase of `judgeByStaticAnalysis`: keep regular,
non-binary files whose name matches a catalog entry; strip comments when
that entry has a grammar, otherwise keep the raw text. -/
def sourceCodeWithoutCommentFiles (files : List DirEnt) : List ScannedFile :=
  files.filterMap (fun d =>
    if d.isFile = false then none
    else if isBinaryText d.text then none
    else
      match findLanguageDefinitionByPath d.name with
      | none => none
      | some ld =>
        some { path := d.name,
               data := match ld.grammer with
                       | some g => removeCommentsInSourceCode g d.text
                       | none => d.text })

/-- JS `data.indexOf(pattern, p)`: least occurrence position at or after
`min p data.length`. -/
def indexOfFrom (data pat : List Char) (p : Nat) : Option Nat :=
  (scanExec (litTry pat) (data.drop (min p data.length)) (min p data.length)).map
    (fun jl => jl.1)

/-- The forbidden-literal `while` loop of `judgeByStaticAnalysis`,
fuel-indexed: returns the occurrence positions it pushes, or `none` when
the fuel runs out — which models the JS loop not terminating (the loop
advances `p` by `pattern.length`, so with a nonempty pattern
`data.length + 1` fuel always suffices). -/
def literalScanLoop (pat data : List Char) : Nat → Nat → Option (List Nat)
  | 0, _ => none
  | fuel + 1, p =>
    if p < data.length then
      match indexOfFrom data pat p with
      | none => some []
      | some idx =>
        (literalScanLoop pat data fuel (idx + pat.length)).map (fun rest => idx :: rest)
    else some []

/-- One row of the forbidden-pattern table `(pattern, file, matched text)`. -/
structure Found where
  pattern : List Char
  path : List Char
  matched : List Char
deriving DecidableEq

/-- `new RegExp(pat, 'g').toString()`. -/
def regexDisplayG (pat : List Char) : List Char :=
  '/' :: (pat ++ ['/', 'g'])

/-- `new RegExp(pat).toString()`. -/
def regexDisplay (pat : List Char) : List Char :=
  '/' :: (pat ++ ['/'])

/-- The front-matter fields of `*.problem.md` consumed by the presets
(`problem.ts` schema). -/
structure ProblemMarkdownFrontMatter where
  timeLimitMs : Option Rat := none
  memoryLimitByte : Option Nat := none
  requiredOutputFilePaths : Option (List (List Char)) := none
  forbiddenRegExpsInCode : Option (List (List Char)) := none
  forbiddenTextsInCode : Option (List (List Char)) := none
  requiredRegExpsInCode : Option (List (List Char)) := none

/-- Matching of a user-supplied forbidden/required regular expression is
delegated to the JS engine; it is modelled as an oracle taking the pattern
source and the scanned text to the list of matched texts, in match order
(`matchAll`); `re.test` is `≠ []` on the same list. -/
def RegexOracle : Type :=
  List Char → List Char → List (List Char)

/-- Sequence a list of fallible computations, propagating `none`. -/
def optTraverse (f : α → Option β) : List α → Option (List β)
  | [] => some []
  | a :: r =>
    match f a, optTraverse f r with
    | some b, some bs => some (b :: bs)
    | _, _ => none

/-- Rows contributed by the forbidden literal patterns on one scanned
file: one row per non-overlapping occurrence, in scan order. -/
def fileLiteralFoundsT (pats : List (List Char)) (f : ScannedFile) : Option (List Found) :=
  (optTraverse
      (fun pat =>
        (literalScanLoop pat f.data (f.data.length + 1) 0).map
          (fun ps => ps.map (fun _ => ({ pattern := pat, path := f.path, matched := pat } : Found))))
      pats).map List.flatten

/-- Rows contributed by one scanned file: all regex matches (every match
of every forbidden regex), then the literal occurrences. -/
def fileFoundsT (oracle : RegexOracle) (fm : ProblemMarkdownFrontMatter) (f : ScannedFile) :
    Option (List Found) :=
  let regexFounds :=
    ((fm.forbiddenRegExpsInCode.getD []).map (fun pat =>
        (oracle pat f.data).map
          (fun m => ({ pattern := regexDisplayG pat, path := f.path, matched := m } : Found)))).flatten
  (fileLiteralFoundsT (fm.forbiddenTextsInCode.getD []) f).map (fun lits => regexFounds ++ lits)

/-- The `forbiddenFounds` table accumulated over all scanned files. -/
def forbiddenFoundsT (oracle : RegexOracle) (fm : ProblemMarkdownFrontMatter)
    (files : List ScannedFile) : Option (List Found) :=
  (optTraverse (fileFoundsT oracle fm) files).map List.flatten

/-- Required regex rules not matched by any scanned file, in rule order. -/
def requiredMissing (oracle : RegexOracle) (fm : ProblemMarkdownFrontMatter)
    (files : List ScannedFile) : List (List Char) :=
  (fm.requiredRegExpsInCode.getD []).filterMap (fun pat =>
    if files.any (fun f => !(oracle pat f.data).isEmpty) then none
    else some (regexDisplay pat))

/-- The structured content of a static-analysis verdict; the Japanese
`feedbackMarkdown` string of the source is rendered from exactly this
data (the table rows, respectively the missing-rule list). -/
inductive StaticVerdict where
  | forbidden (founds : List Found)
  | required (missing : List (List Char))
deriving DecidableEq

/-- `judgeByStaticAnalysis(cwd, frontMatter)`, with the directory listing
and regex engine as oracles; the outer `Option` is `none` when the
forbidden-literal loop would not terminate (empty literal pattern). -/
def judgeByStaticAnalysisT (oracle : RegexOracle) (fm : ProblemMarkdownFrontMatter)
    (files : List DirEnt) : Option (Option StaticVerdict) :=
  let scanned := sourceCodeWithoutCommentFiles files
  match forbiddenFoundsT oracle fm scanned with
  | none => none
  | some founds =>
    if founds ≠ [] then some (some (.forbidden founds))
    else
      let missing := requiredMissing oracle fm scanned
      if missing ≠ [] then some (some (.required missing)) else some none

/-! ## Decision codes and results -/

/-- The decision-code enum.  `decisionCode.ts` itself is not among the
provided sources; every member except `UNSUPPORTED_LANGUAGE` is named from
its uses in the presets and `judgeByStaticAnalysis`.  `UNSUPPORTED_LANGUAGE`
is modelled from the spec's verdict taxonomy (§4.3), which lists it as a
pre-build kind; no code in the sources produces it. -/
inductive DecisionCode where
  | ACCEPTED
  | WRONG_ANSWER
  | TIME_LIMIT_EXCEEDED
  | MEMORY_LIMIT_EXCEEDED
  | OUTPUT_SIZE_LIMIT_EXCEEDED
  | RUNTIME_ERROR
  | MISSING_REQUIRED_OUTPUT_FILE_ERROR
  | MISSING_REQUIRED_SUBMISSION_FILE_ERROR
  | FORBIDDEN_PATTERNS_IN_CODE_ERROR
  | REQUIRED_PATTERNS_IN_CODE_ERROR
  | BUILD_ERROR
  | BUILD_TIME_LIMIT_EXCEEDED
  | BUILD_OUTPUT_SIZE_LIMIT_EXCEEDED
  | UNSUPPORTED_LANGUAGE
deriving DecidableEq

/-- Decision code of a static-analysis verdict. -/
def staticVerdictCode : StaticVerdict → DecisionCode
  | .forbidden _ => .FORBIDDEN_PATTERNS_IN_CODE_ERROR
  | .required _ => .REQUIRED_PATTERNS_IN_CODE_ERROR

/-- Observation of one `spawnSyncWithTimeout` call: exit status (`none`
models JS `null`, a process killed before exiting), captured output,
elapsed seconds and peak memory. -/
structure SpawnResult where
  status : Option Int := some 0
  stdout : List Char := []
  stderr : List Char := []
  timeSeconds : Rat := 0
  memoryBytes : Nat := 0
deriving DecidableEq

/-- One registered test case (`readTestCases` output entry). -/
structure TestCase where
  id : List Char
  stdin : Option (List Char) := none
  stdout : Option (List Char) := none
deriving DecidableEq

/-- A `TestCaseResult` as printed by the presets.  `feedback` carries the
structured static-analysis verdict rendered into `feedbackMarkdown` by the
source; the `outputFiles` attachment list is presentation-only and not
modelled. -/
structure TestCaseResult where
  testCaseId : List Char
  decisionCode : DecisionCode
  exitStatus : Option Int := none
  stdin : Option (List Char) := none
  stdout : Option (List Char) := none
  stderr : Option (List Char) := none
  timeSeconds : Option Rat := none
  memoryBytes : Option Nat := none
  feedback : Option StaticVerdict := none
deriving DecidableEq

/-- `BUILD_TIMEOUT_SECONDS` in `stdio.ts`. -/
def BUILD_TIMEOUT_SECONDS : Rat := 10

/-- `JUDGE_DEFAULT_TIMEOUT_SECONDS` in `stdio.ts`. -/
def JUDGE_DEFAULT_TIMEOUT_SECONDS : Rat := 2

/-- `MAX_STDOUT_LENGTH` in `stdio.ts`. -/
def MAX_STDOUT_LENGTH : Nat := 50000

/-- JS `s || undefined`: an empty string becomes `undefined`. -/
def emptyToNone (l : List Char) : Option (List Char) :=
  if l = [] then none else some l

/-- A whitespace character for stdout token splitting. -/
def isWsChar (c : Char) : Bool :=
  c = ' ' ∨ c = '\t' ∨ c = '\n' ∨ c = '\r'

/-- Maximal non-whitespace token runs of an output text. -/
def stdoutTokens (l : List Char) : List (List Char) :=
  (l.splitOnP isWsChar).filter (fun t => t ≠ [])

/-- Modelled from the spec: `compareStdoutAsSpaceSeparatedTokens.ts` is
not among the provided sources; §4.5 states "stdout comparison uses
whitespace/token-insensitive equality — sequences of non-whitespace
tokens must match exactly". -/
def compareStdoutAsSpaceSeparatedTokens (a b : List Char) : Bool :=
  decide (stdoutTokens a = stdoutTokens b)

/-- The per-test timeout:
`typeof timeLimitMs === 'number' ? timeLimitMs / 1000 : 2`. -/
def judgeTimeoutSeconds (fm : ProblemMarkdownFrontMatter) : Rat :=
  match fm.timeLimitMs with
  | some ms => ms / 1000
  | none => JUDGE_DEFAULT_TIMEOUT_SECONDS

/-- `memoryBytes > (memoryLimitByte ?? +Infinity)`: false when no limit is
configured. -/
def memoryLimitExceeded (fm : ProblemMarkdownFrontMatter) (memoryBytes : Nat) : Bool :=
  match fm.memoryLimitByte with
  | some l => decide (l < memoryBytes)
  | none => false

/-- The run-stage decision chain of `stdioJudgePreset` (lines 169-183),
checked in source order. -/
def classifyRun (fm : ProblemMarkdownFrontMatter) (timeoutSeconds : Rat) (r : SpawnResult)
    (outputFilesCount : Nat) (expectedStdout : List Char) : DecisionCode :=
  if r.status ≠ some 0 then .RUNTIME_ERROR
  else if timeoutSeconds < r.timeSeconds then .TIME_LIMIT_EXCEEDED
  else if memoryLimitExceeded fm r.memoryBytes then .MEMORY_LIMIT_EXCEEDED
  else if MAX_STDOUT_LENGTH < r.stdout.length ∨ MAX_STDOUT_LENGTH < r.stderr.length then
    .OUTPUT_SIZE_LIMIT_EXCEEDED
  else if outputFilesCount < (fm.requiredOutputFilePaths.getD []).length then
    .MISSING_REQUIRED_OUTPUT_FILE_ERROR
  else if compareStdoutAsSpaceSeparatedTokens r.stdout expectedStdout = false then
    .WRONG_ANSWER
  else .ACCEPTED

/-- Oracle observation of running one test case: the spawn result and how
many of the required output files `readOutputFiles` could read
afterwards. -/
structure RunObservation where
  spawn : SpawnResult := {}
  outputFilesCount : Nat := 0

/-- Execute and classify one test case, building the emitted result
(`stdioJudgePreset` lines 152-195). -/
def runTestCase (fm : ProblemMarkdownFrontMatter) (ob : RunObservation) (tc : TestCase) :
    TestCaseResult :=
  { testCaseId := tc.id,
    decisionCode :=
      classifyRun fm (judgeTimeoutSeconds fm) ob.spawn ob.outputFilesCount (tc.stdout.getD []),
    exitStatus := ob.spawn.status,
    stdin := tc.stdin,
    stdout := emptyToNone (ob.spawn.stdout.take MAX_STDOUT_LENGTH),
    stderr := emptyToNone (ob.spawn.stderr.take MAX_STDOUT_LENGTH),
    timeSeconds := some ob.spawn.timeSeconds,
    memoryBytes := some ob.spawn.memoryBytes }

/-- `runTestCase` on an index-paired test case, the index selecting the
run observation (the working directory may change between runs, so each
test index has its own observation). -/
def runOne (fm : ProblemMarkdownFrontMatter) (obs : Nat → RunObservation)
    (x : Nat × TestCase) : TestCaseResult :=
  runTestCase fm (obs x.1) x.2

/-- The `for (const testCase of testCases)` loop: emit each result and
`break` after the first non-ACCEPTED one. -/
def runLoop (fm : ProblemMarkdownFrontMatter) (obs : Nat → RunObservation) :
    List (Nat × TestCase) → List TestCaseResult
  | [] => []
  | x :: rest =>
    let r := runOne fm obs x
    if r.decisionCode = .ACCEPTED then r :: runLoop fm obs rest else [r]

/-- Index of the first test case whose classification is not ACCEPTED. -/
def firstFailIdx (fm : ProblemMarkdownFrontMatter) (obs : Nat → RunObservation) :
    List (Nat × TestCase) → Option Nat
  | [] => none
  | x :: rest =>
    if (runOne fm obs x).decisionCode ≠ DecisionCode.ACCEPTED then some 0
    else (firstFailIdx fm obs rest).map (fun n => n + 1)

/-- The build-stage decision chain (`stdioJudgePreset` lines 115-126). -/
def classifyBuild (r : SpawnResult) : DecisionCode :=
  if r.status ≠ some 0 then .BUILD_ERROR
  else if BUILD_TIMEOUT_SECONDS < r.timeSeconds then .BUILD_TIME_LIMIT_EXCEEDED
  else if MAX_STDOUT_LENGTH < r.stdout.length ∨ MAX_STDOUT_LENGTH < r.stderr.length then
    .BUILD_OUTPUT_SIZE_LIMIT_EXCEEDED
  else .ACCEPTED

/-- The result emitted when the build stage fails with a spawn result
(`stdioJudgePreset` lines 129-137). -/
def buildFailureResult (id : List Char) (code : DecisionCode) (r : SpawnResult) :
    TestCaseResult :=
  { testCaseId := id,
    decisionCode := code,
    exitStatus := r.status,
    stdout := emptyToNone (r.stdout.take MAX_STDOUT_LENGTH),
    stderr := emptyToNone (r.stderr.take MAX_STDOUT_LENGTH),
    timeSeconds := some r.timeSeconds,
    memoryBytes := some r.memoryBytes }

/-- `testCases[0]?.id ?? fallback`. -/
def headIdOr (tcs : List TestCase) (fallback : List Char) : List Char :=
  match tcs with
  | [] => fallback
  | t :: _ => t.id

/-- The single result emitted when static analysis yields a verdict. -/
def staticAnalysisResult (tcs : List TestCase) (v : StaticVerdict) : TestCaseResult :=
  { testCaseId := headIdOr tcs ("prebuild".toList),
    decisionCode := staticVerdictCode v,
    feedback := some v }

/-- The single result emitted when no entry file resolves. -/
def missingMainFileResult (tcs : List TestCase) (languageParam : Option (List Char)) :
    TestCaseResult :=
  { testCaseId := headIdOr tcs ("prebuild".toList),
    decisionCode := .MISSING_REQUIRED_SUBMISSION_FILE_ERROR,
    stderr := some ("main file not found".toList ++
      (match languageParam with
        | some l => ": language: ".toList ++ l
        | none => [])) }

/-- The single result emitted when the entry file's extension matches no
catalog entry. -/
def unsupportedLanguageResult (tcs : List TestCase) : TestCaseResult :=
  { testCaseId := headIdOr tcs ("prebuild".toList),
    decisionCode := .WRONG_ANSWER,
    stderr := some ("unsupported language".toList) }

/-- All oracle observations one `stdioJudgePreset` invocation consumes:
the parsed front matter and test cases, the recursive submission listing,
the regex engine, the `language` invocation parameter, the
`findEntryPointFile` result, the prebuild outcome (error message, or the
re-resolved entry file — unused downstream because the command vectors are
not modelled), the build spawn outcome (error = thrown before
classification), and one run observation per test index. -/
structure JudgeWorld where
  frontMatter : ProblemMarkdownFrontMatter := {}
  testCases : List TestCase := []
  submissionFiles : List DirEnt := []
  regexOracle : RegexOracle := fun _ _ => []
  languageParam : Option (List Char) := none
  entryPoint : Option (List Char) := none
  prebuildResult : Except (List Char) (Option (List Char)) := .ok none
  buildResult : Except (List Char) SpawnResult := .ok {}
  runObservations : Nat → RunObservation := fun _ => {}

/-- `stdioJudgePreset`: static analysis, then entry-file resolution, then
language lookup, then optional prebuild and build, then the test-case
loop.  Returns the emitted result stream; `none` when the static
analyzer's literal scan would not terminate. -/
def stdioJudgePreset (w : JudgeWorld) : Option (List TestCaseResult) :=
  match judgeByStaticAnalysisT w.regexOracle w.frontMatter w.submissionFiles with
  | none => none
  | some (some v) => some [staticAnalysisResult w.testCases v]
  | some none =>
    match w.entryPoint with
    | none => some [missingMainFileResult w.testCases w.languageParam]
    | some entry =>
      match findLanguageDefinitionByPath entry with
      | none => some [unsupportedLanguageResult w.testCases]
      | some ld =>
        match (if ld.hasPrebuild then w.prebuildResult else .ok none) with
        | .error msg =>
          some [{ testCaseId := headIdOr w.testCases ("prebuild".toList),
                  decisionCode := .BUILD_ERROR, stderr := some msg }]
        | .ok _ =>
          if ld.hasBuildCommand then
            match w.buildResult with
            | .error msg =>
              some [{ testCaseId := headIdOr w.testCases ("build".toList),
                      decisionCode := .BUILD_ERROR, stderr := some msg }]
            | .ok br =>
              if classifyBuild br ≠ DecisionCode.ACCEPTED then
                some [buildFailureResult (headIdOr w.testCases ("build".toList))
                        (classifyBuild br) br]
              else some (runLoop w.frontMatter w.runObservations w.testCases.enum)
          else some (runLoop w.frontMatter w.runObservations w.testCases.enum)

/-! ## Lemmas about the pattern scanners -/

theorem countWs_le : ∀ u : List Char, countWs u ≤ u.length := by
  intro u
  induction u with
  | nil => simp [countWs]
  | cons c r ih =>
    simp only [countWs, List.length_cons]
    split
    · omega
    · omega

theorem isPrefixOf_length_le {pat u : List Char} (h : pat.isPrefixOf u = true) :
    pat.length ≤ u.length := by
  exact (List.isPrefixOf_iff_prefix.mp h).length_le

theorem isPrefixOf_drop_length {pat u : List Char} {k : Nat} (hk : k ≤ u.length)
    (h : pat.isPrefixOf (u.drop k) = true) : k + pat.length ≤ u.length := by
  have := isPrefixOf_length_le h
  simp only [List.length_drop] at this
  omega

theorem litTry_eq_some {pat u : List Char} {n : Nat} (h : litTry pat u = some n) :
    n = pat.length ∧ pat.isPrefixOf u = true := by
  unfold litTry at h
  split at h
  · simp_all
  · simp_all

theorem litTry_bounds {c : Char} {cs u : List Char} {n : Nat}
    (h : litTry (c :: cs) u = some n) : 1 ≤ n ∧ n ≤ u.length := by
  obtain ⟨hn, hp⟩ := litTry_eq_some h
  have := isPrefixOf_length_le hp
  simp [hn] at this ⊢
  omega

theorem tryWsBodyAux_eq_some {body u1 : List Char} :
    ∀ {n m : Nat}, tryWsBodyAux body u1 n = some m →
      ∃ k, k ≤ n ∧ m = k + body.length ∧ body.isPrefixOf (u1.drop k) = true := by
  intro n
  induction n with
  | zero =>
    intro m h
    unfold tryWsBodyAux at h
    split at h
    · exact ⟨0, by simp_all⟩
    · simp_all
  | succ n ih =>
    intro m h
    unfold tryWsBodyAux at h
    split at h
    · exact ⟨n + 1, by omega, by simp_all, by simp_all⟩
    · obtain ⟨k, hk, hm, hp⟩ := ih h
      exact ⟨k, by omega, hm, hp⟩

theorem tryWsBody_bounds {c : Char} {cs u1 : List Char} {m : Nat}
    (h : tryWsBody (c :: cs) u1 = some m) : 1 ≤ m ∧ m ≤ u1.length := by
  obtain ⟨k, hk, hm, hp⟩ := tryWsBodyAux_eq_some h
  have hk2 : k ≤ u1.length := le_trans hk (countWs_le u1)
  have := isPrefixOf_drop_length hk2 hp
  simp only [List.length_cons] at *
  omega

theorem tryCommentOpen_bounds {c : Char} {cs u : List Char} {m : Nat}
    (h : tryCommentOpen (c :: cs) u = some m) : 1 ≤ m ∧ m ≤ u.length := by
  unfold tryCommentOpen at h
  split at h
  · rename_i ch r
    cases hw : tryWsBody (c :: cs) r with
    | some n =>
      rw [hw] at h
      obtain ⟨h1, h2⟩ := tryWsBody_bounds hw
      simp only [Option.some.injEq] at h
      simp only [List.length_cons]
      omega
    | none =>
      rw [hw] at h
      exact tryWsBody_bounds h
  · exact tryWsBody_bounds h

theorem scanExec_eq_some {t : List Char → Option Nat} :
    ∀ {u : List Char} {j j' n : Nat}, scanExec t u j = some (j', n) →
      ∃ k, k ≤ u.length ∧ j' = j + k ∧ t (u.drop k) = some n ∧
        ∀ k2 < k, t (u.drop k2) = none := by
  intro u
  induction u with
  | nil =>
    intro j j' n h
    unfold scanExec at h
    cases ht : t [] with
    | some m => rw [ht] at h; simp at h; exact ⟨0, by simp, by omega, by simp [ht, h], by omega⟩
    | none => rw [ht] at h; simp at h
  | cons c r ih =>
    intro j j' n h
    unfold scanExec at h
    cases ht : t (c :: r) with
    | some m =>
      rw [ht] at h
      simp only [Option.some.injEq, Prod.mk.injEq] at h
      exact ⟨0, by simp, by omega, by simp [ht, h.2], by omega⟩
    | none =>
      rw [ht] at h
      obtain ⟨k, hk, hj, hsome, hmin⟩ := ih h
      refine ⟨k + 1, by simpa using hk, by omega, by simpa using hsome, ?_⟩
      intro k2 hk2
      cases k2 with
      | zero => simpa using ht
      | succ k3 => simpa using hmin k3 (by omega)

theorem scanExec_eq_none {t : List Char → Option Nat} :
    ∀ {u : List Char} {j : Nat}, scanExec t u j = none →
      ∀ k ≤ u.length, t (u.drop k) = none := by
  intro u
  induction u with
  | nil =>
    intro j h k hk
    unfold scanExec at h
    cases ht : t [] with
    | some m => rw [ht] at h; simp at h
    | none =>
      have hk0 : k = 0 := by simpa using hk
      subst hk0
      simpa using ht
  | cons c r ih =>
    intro j h k hk
    unfold scanExec at h
    cases ht : t (c :: r) with
    | some m => rw [ht] at h; simp at h
    | none =>
      rw [ht] at h
      cases k with
      | zero => simpa using ht
      | succ k2 => simpa using ih h k2 (by simpa using hk)

theorem scanExecP_eq_some {t : Option Char → List Char → Option Nat} :
    ∀ {u : List Char} {prev : Option Char} {j j' n : Nat},
      scanExecP t prev u j = some (j', n) → j ≤ j' := by
  intro u
  induction u with
  | nil =>
    intro prev j j' n h
    unfold scanExecP at h
    cases ht : t prev [] with
    | some m => rw [ht] at h; simp at h; omega
    | none => rw [ht] at h; simp at h
  | cons c r ih =>
    intro prev j j' n h
    unfold scanExecP at h
    cases ht : t prev (c :: r) with
    | some m => rw [ht] at h; simp at h; omega
    | none => rw [ht] at h; have := ih h; omega

theorem OpenPat.exec_bounds {p : OpenPat} {s : List Char} {i j l : Nat}
    (h : p.exec s i = some (j, l)) : i ≤ j ∧ 1 ≤ l ∧ j + l ≤ s.length := by
  cases p with
  | literalPat c cs =>
    obtain ⟨k, hk, hj, hsome, -⟩ := scanExec_eq_some h
    rw [List.drop_drop] at hsome
    obtain ⟨h1, h2⟩ := litTry_bounds hsome
    simp only [List.length_drop] at *
    omega
  | commentOpenPat c cs =>
    obtain ⟨k, hk, hj, hsome, -⟩ := scanExec_eq_some h
    rw [List.drop_drop] at hsome
    obtain ⟨h1, h2⟩ := tryCommentOpen_bounds hsome
    simp only [List.length_drop] at *
    omega

theorem ClosePat.exec_start {cp : ClosePat} {s : List Char} {i j l : Nat}
    (h : cp.exec s i = some (j, l)) : i ≤ j := by
  cases cp with
  | literalPat c cs => obtain ⟨k, -, hj, -, -⟩ := scanExec_eq_some h; omega
  | stringClosePat c cs => exact scanExecP_eq_some h
  | newlineLookahead => obtain ⟨k, -, hj, -, -⟩ := scanExec_eq_some h; omega

/-- Validity of a selected rule match: starts at or after the cursor, is
nonempty, and lies inside the text. -/
def SelOk (s : List Char) (i : Nat) (sel : Sel) : Prop :=
  i ≤ sel.idx ∧ 1 ≤ sel.len ∧ sel.idx + sel.len ≤ s.length

theorem selectFirstAux_ok {s : List Char} {i : Nat} :
    ∀ (rules : List ScanRule) (acc : Option Sel),
      (∀ a, acc = some a → SelOk s i a) →
      ∀ sel, selectFirstAux s i acc rules = some sel → SelOk s i sel := by
  intro rules
  induction rules with
  | nil =>
    intro acc hacc sel h
    exact hacc sel (by simpa [selectFirstAux] using h)
  | cons r rest ih =>
    intro acc hacc sel h
    unfold selectFirstAux at h
    refine ih _ ?_ sel h
    intro a ha
    cases he : r.openPat.exec s i with
    | some jl =>
      rw [he] at ha
      obtain ⟨h1, h2, h3⟩ := OpenPat.exec_bounds
        (show r.openPat.exec s i = some (jl.1, jl.2) by rw [he])
      cases acc with
      | none =>
        simp only [Option.some.injEq] at ha
        subst ha
        exact ⟨h1, h2, h3⟩
      | some f =>
        simp only at ha
        split at ha
        · simp only [Option.some.injEq] at ha
          subst ha
          exact ⟨h1, h2, h3⟩
        · exact hacc a (by simpa using ha)
    | none =>
      rw [he] at ha
      exact hacc a ha

theorem selectFirst_ok {g : Grammer} {s : List Char} {i : Nat} {sel : Sel}
    (h : selectFirst g s i = some sel) : SelOk s i sel :=
  selectFirstAux_ok (rulesOf g) none (by intro a ha; cases ha) sel h

theorem closeAdvance_lower {cp : ClosePat} {s : List Char} {a : Nat} :
    a ≤ closeAdvance cp s a ∨ closeAdvance cp s a = s.length := by
  cases hj : cp.exec s a with
  | none => right; simp [closeAdvance, hj]
  | some jl =>
    obtain ⟨j, l⟩ := jl
    left
    have hs := ClosePat.exec_start hj
    simp only [closeAdvance, hj]
    omega

theorem slice_append_slice {s : List Char} {a b c : Nat} (hab : a ≤ b) (hbc : b ≤ c) :
    slice s a b ++ slice s b c = slice s a c := by
  unfold slice
  have hd : s.drop b = (s.drop a).drop (b - a) := by
    rw [List.drop_drop]
    congr 1
    omega
  rw [hd, ← List.take_add]
  congr 1
  omega

theorem slice_append_drop {s : List Char} {a b : Nat} (hab : a ≤ b) :
    slice s a b ++ s.drop b = s.drop a := by
  unfold slice
  have hd : s.drop b = (s.drop a).drop (b - a) := by
    rw [List.drop_drop]
    congr 1
    omega
  rw [hd, List.take_append_drop]

theorem slice_to_length {s : List Char} {a : Nat} : slice s a s.length = s.drop a := by
  unfold slice
  apply List.take_of_length_le
  simp

/-- The scan appends the text verbatim whenever every selected rule is a
string rule: no comment selected anywhere means the output from position
`i` onward is exactly the remaining input. -/
theorem scanLoop_no_comment (g : Grammer) (s : List Char) :
    ∀ (fuel i : Nat) (out : List Char) (flags : List Bool),
      scanLoop g s fuel i = (out, flags) → s.length + 1 ≤ fuel + i →
      (∀ b ∈ flags, b = false) → out = s.drop i := by
  intro fuel
  induction fuel with
  | zero =>
    intro i out flags h hfuel hflags
    simp only [scanLoop, Prod.mk.injEq] at h
    have : s.length < i := by omega
    rw [← h.1]
    symm
    apply List.drop_eq_nil_of_le
    omega
  | succ fuel ih =>
    intro i out flags h hfuel hflags
    unfold scanLoop at h
    split at h
    · rename_i hi
      cases hsel : selectFirst g s i with
      | none =>
        rw [hsel] at h
        simp only [Prod.mk.injEq] at h
        rw [← h.1, slice_to_length]
      | some sel =>
        rw [hsel] at h
        simp only [Prod.mk.injEq] at h
        obtain ⟨hidx, hlen, hbound⟩ := selectFirst_ok hsel
        have hcomment : sel.isComment = false := by
          apply hflags
          rw [← h.2]
          simp
        set cp := sel.closePat.getD ClosePat.newlineLookahead with hcp
        set newLast := closeAdvance cp s (sel.idx + sel.len) with hnl
        have hadv : i + 1 ≤ newLast ∧ sel.idx ≤ newLast := by
          rcases @closeAdvance_lower cp s (sel.idx + sel.len) with hle | heq
          · constructor <;> omega
          · rw [hnl, heq]
            constructor <;> omega
        have hq : (scanLoop g s fuel newLast).1 = s.drop newLast := by
          apply ih newLast (scanLoop g s fuel newLast).1 (scanLoop g s fuel newLast).2 rfl
            (by omega)
          intro b hb
          apply hflags
          rw [← h.2]
          exact List.mem_cons_of_mem _ hb
        rw [← h.1, hcomment]
        simp only [Bool.false_eq_true, if_false, hq]
        rw [slice_append_slice hidx hadv.2, slice_append_drop (by omega : i ≤ newLast)]
    · rename_i hi
      simp only [Prod.mk.injEq] at h
      rw [← h.1]
      symm
      apply List.drop_eq_nil_of_le
      omega

/-! ## Lemmas about the forbidden-literal scan -/

theorem litTry_eq_none {pat u : List Char} (h : litTry pat u = none) :
    pat.isPrefixOf u = false := by
  unfold litTry at h
  split at h
  · simp_all
  · rename_i hc
    simp only [Bool.not_eq_true] at hc
    exact hc

theorem isPrefixOf_false_of_past_end {pat data : List Char} (hp : pat ≠ []) {q : Nat}
    (hq : data.length ≤ q) : pat.isPrefixOf (data.drop q) = false := by
  rw [List.drop_eq_nil_of_le hq]
  cases pat with
  | nil => exact absurd rfl hp
  | cons c cs => rfl

theorem indexOfFrom_eq_some {data pat : List Char} {p idx : Nat}
    (h : indexOfFrom data pat p = some idx) :
    min p data.length ≤ idx ∧ pat.isPrefixOf (data.drop idx) = true ∧
      ∀ q, min p data.length ≤ q → q < idx → pat.isPrefixOf (data.drop q) = false := by
  unfold indexOfFrom at h
  cases hs : scanExec (litTry pat) (data.drop (min p data.length)) (min p data.length) with
  | none => rw [hs] at h; simp at h
  | some jl =>
    obtain ⟨j, n⟩ := jl
    rw [hs] at h
    rw [Option.map_some'] at h
    simp only [Option.some.injEq] at h
    subst h
    obtain ⟨k, hk, hj, hsome, hmin⟩ := scanExec_eq_some hs
    rw [List.drop_drop] at hsome
    have hocc := (litTry_eq_some hsome).2
    refine ⟨by omega, by rwa [show min p data.length + k = j by omega] at hocc, ?_⟩
    intro q hq hlt
    have := hmin (q - min p data.length) (by omega)
    rw [List.drop_drop,
      show min p data.length + (q - min p data.length) = q by omega] at this
    exact litTry_eq_none this

theorem indexOfFrom_eq_none {data pat : List Char} {p : Nat}
    (h : indexOfFrom data pat p = none) :
    ∀ q, min p data.length ≤ q → q ≤ data.length → pat.isPrefixOf (data.drop q) = false := by
  unfold indexOfFrom at h
  cases hs : scanExec (litTry pat) (data.drop (min p data.length)) (min p data.length) with
  | some jl => rw [hs] at h; simp at h
  | none =>
    intro q hq hle
    have := scanExec_eq_none hs (q - min p data.length)
      (by simp only [List.length_drop]; omega)
    rw [List.drop_drop,
      show min p data.length + (q - min p data.length) = q by omega] at this
    exact litTry_eq_none this

theorem literalScanLoop_total {pat data : List Char} (hp : pat ≠ []) :
    ∀ (fuel p : Nat), data.length + 1 ≤ fuel + p → 1 ≤ fuel →
      (literalScanLoop pat data fuel p).isSome = true := by
  intro fuel
  induction fuel with
  | zero => intro p _ hf; omega
  | succ fuel ih =>
    intro p hfp _
    unfold literalScanLoop
    split
    · rename_i hlt
      cases hio : indexOfFrom data pat p with
      | none => simp
      | some idx =>
        have hmin : min p data.length = p := by omega
        obtain ⟨hge, -, -⟩ := indexOfFrom_eq_some hio
        rw [hmin] at hge
        have hplen : 0 < pat.length := List.length_pos.mpr hp
        simp only [Option.isSome_map']
        exact ih (idx + pat.length) (by omega) (by omega)
    · simp

theorem literalScanLoop_spec {pat data : List Char} (hp : pat ≠ []) :
    ∀ (fuel p : Nat) (ps : List Nat), literalScanLoop pat data fuel p = some ps →
      (∀ q ∈ ps, p ≤ q ∧ pat.isPrefixOf (data.drop q) = true) ∧
      List.Chain' (fun a b => a + pat.length ≤ b) ps ∧
      (∀ q, p ≤ q → pat.isPrefixOf (data.drop q) = true →
        ∃ r ∈ ps, r ≤ q ∧ q < r + pat.length) := by
  intro fuel
  induction fuel with
  | zero => intro p ps h; simp [literalScanLoop] at h
  | succ fuel ih =>
    intro p ps h
    unfold literalScanLoop at h
    split at h
    · rename_i hlt
      have hmin : min p data.length = p := by omega
      split at h
      · rename_i hio
        simp only [Option.some.injEq] at h
        subst h
        refine ⟨by simp, by simp, ?_⟩
        intro q hq hocc
        by_cases hqe : q ≤ data.length
        · have := indexOfFrom_eq_none hio q (by omega) hqe
          rw [this] at hocc
          cases hocc
        · rw [isPrefixOf_false_of_past_end hp (by omega)] at hocc
          cases hocc
      · rename_i idx hio
        cases hrec : literalScanLoop pat data fuel (idx + pat.length) with
        | none => rw [hrec] at h; simp at h
        | some rest =>
          rw [hrec] at h
          rw [Option.map_some'] at h
          simp only [Option.some.injEq] at h
          subst h
          obtain ⟨hge, hocc, hminimal⟩ := indexOfFrom_eq_some hio
          rw [hmin] at hge hminimal
          obtain ⟨hsound, hchain, hcomplete⟩ := ih (idx + pat.length) rest hrec
          have hplen : 0 < pat.length := List.length_pos.mpr hp
          refine ⟨?_, ?_, ?_⟩
          · intro q hq
            rcases List.mem_cons.mp hq with hq | hq
            · exact ⟨hq ▸ hge, hq ▸ hocc⟩
            · obtain ⟨h1, h2⟩ := hsound q hq
              exact ⟨by omega, h2⟩
          · rw [List.chain'_cons']
            refine ⟨?_, hchain⟩
            intro y hy
            have : y ∈ rest := List.mem_of_mem_head? hy
            exact (hsound y this).1
          · intro q hq hqocc
            by_cases h1 : q < idx
            · rw [hminimal q hq h1] at hqocc
              cases hqocc
            · by_cases h2 : q < idx + pat.length
              · exact ⟨idx, List.mem_cons_self idx rest, by omega, by omega⟩
              · obtain ⟨r, hr, hr1, hr2⟩ := hcomplete q (by omega) hqocc
                exact ⟨r, List.mem_cons_of_mem _ hr, hr1, hr2⟩
    · rename_i hlt
      simp only [Option.some.injEq] at h
      subst h
      refine ⟨by simp, by simp, ?_⟩
      intro q hq hocc
      rw [isPrefixOf_false_of_past_end hp (by omega)] at hocc
      cases hocc

theorem literalScanLoop_empty_pat {data : List Char} :
    ∀ (fuel p : Nat), p < data.length → literalScanLoop [] data fuel p = none := by
  intro fuel
  induction fuel with
  | zero => intro p _; rfl
  | succ fuel ih =>
    intro p hp
    have hmin : min p data.length = p := by omega
    have hio : indexOfFrom data [] p = some p := by
      unfold indexOfFrom
      rw [hmin]
      cases hd : data.drop p with
      | nil => simp [scanExec, litTry, List.isPrefixOf]
      | cons c r => simp [scanExec, litTry, List.isPrefixOf]
    unfold literalScanLoop
    rw [if_pos hp, hio]
    simp [ih p hp]

/-- Sequencing a list of `some`-valued computations succeeds. -/
theorem optTraverse_isSome {f : α → Option β} :
    ∀ {l : List α}, (∀ a ∈ l, (f a).isSome = true) → (optTraverse f l).isSome = true := by
  intro l
  induction l with
  | nil => intro _; simp [optTraverse]
  | cons a r ih =>
    intro h
    have ha := h a (List.mem_cons_self a r)
    have hr := ih (fun b hb => h b (List.mem_cons_of_mem a hb))
    unfold optTraverse
    cases hfa : f a with
    | none => rw [hfa] at ha; simp at ha
    | some b =>
      cases hfr : optTraverse f r with
      | none => rw [hfr] at hr; simp at hr
      | some bs => simp

/-- With nonempty forbidden literal patterns the whole static analyzer
terminates. -/
theorem judgeByStaticAnalysisT_total (oracle : RegexOracle) (fm : ProblemMarkdownFrontMatter)
    (files : List DirEnt) (hne : ∀ pat ∈ fm.forbiddenTextsInCode.getD [], pat ≠ []) :
    (judgeByStaticAnalysisT oracle fm files).isSome = true := by
  have hfiles : ∀ f ∈ sourceCodeWithoutCommentFiles files,
      (fileFoundsT oracle fm f).isSome = true := by
    intro f _
    unfold fileFoundsT
    rw [Option.isSome_map']
    unfold fileLiteralFoundsT
    rw [Option.isSome_map']
    apply optTraverse_isSome
    intro pat hpat
    rw [Option.isSome_map']
    exact literalScanLoop_total (hne pat hpat) (f.data.length + 1) 0 (by omega) (by omega)
  have hforb : (forbiddenFoundsT oracle fm (sourceCodeWithoutCommentFiles files)).isSome = true := by
    unfold forbiddenFoundsT
    rw [Option.isSome_map']
    exact optTraverse_isSome hfiles
  cases hf : forbiddenFoundsT oracle fm (sourceCodeWithoutCommentFiles files) with
  | none => rw [hf] at hforb; simp at hforb
  | some founds =>
    by_cases hfe : founds = []
    · by_cases hm : requiredMissing oracle fm (sourceCodeWithoutCommentFiles files) = []
      · simp [judgeByStaticAnalysisT, hf, hfe, hm]
      · simp [judgeByStaticAnalysisT, hf, hfe, hm]
    · simp [judgeByStaticAnalysisT, hf, hfe]

/-! ## Claim theorems: run loop and classification -/

/-- C1.  Fail-fast grading: the run loop of `stdioJudgePreset` emits one
result per executed test case in list order; when every classification is
ACCEPTED the stream covers all test cases and is all-ACCEPTED, and when
the first non-ACCEPTED classification occurs at index `j` the stream is
exactly the results of the first `j + 1` test cases — an ACCEPTED prefix
followed by one non-ACCEPTED result — so no test case after the first
failing one is executed. -/
theorem c1_fail_fast (fm : ProblemMarkdownFrontMatter) (obs : Nat → RunObservation)
    (l : List (Nat × TestCase)) :
    (firstFailIdx fm obs l = none →
      runLoop fm obs l = l.map (runOne fm obs) ∧
      ∀ r ∈ runLoop fm obs l, r.decisionCode = DecisionCode.ACCEPTED) ∧
    (∀ j, firstFailIdx fm obs l = some j →
      runLoop fm obs l = (l.take (j + 1)).map (runOne fm obs) ∧
      (runLoop fm obs l).length = j + 1 ∧
      ∃ pre last, runLoop fm obs l = pre ++ [last] ∧
        (∀ r ∈ pre, r.decisionCode = DecisionCode.ACCEPTED) ∧
        last.decisionCode ≠ DecisionCode.ACCEPTED) := by
  induction l with
  | nil =>
    constructor
    · intro _
      exact ⟨rfl, by simp [runLoop]⟩
    · intro j hj
      simp [firstFailIdx] at hj
  | cons x rest ih =>
    by_cases hx : (runOne fm obs x).decisionCode = DecisionCode.ACCEPTED
    · constructor
      · intro hnone
        simp only [firstFailIdx, hx, ne_eq, not_true_eq_false, if_false,
          Option.map_eq_none'] at hnone
        obtain ⟨heq, hall⟩ := ih.1 hnone
        constructor
        · simp [runLoop, hx, heq]
        · intro r hr
          simp only [runLoop, hx, if_pos] at hr
          rcases List.mem_cons.mp hr with hr | hr
          · rw [hr]; exact hx
          · exact hall r hr
      · intro j hj
        simp only [firstFailIdx, hx, ne_eq, not_true_eq_false, if_false] at hj
        cases hrest : firstFailIdx fm obs rest with
        | none => rw [hrest] at hj; simp at hj
        | some j2 =>
          rw [hrest] at hj
          simp only [Option.map_some', Option.some.injEq] at hj
          subst hj
          obtain ⟨heq, hlen, pre, last, hsplit, hpre, hlast⟩ := ih.2 j2 hrest
          refine ⟨?_, ?_, runOne fm obs x :: pre, last, ?_, ?_, hlast⟩
          · simp [runLoop, hx, heq, List.take_succ_cons]
          · simp [runLoop, hx, hlen]
          · simp [runLoop, hx, hsplit]
          · intro r hr
            rcases List.mem_cons.mp hr with hr | hr
            · rw [hr]; exact hx
            · exact hpre r hr
    · constructor
      · intro hnone
        simp [firstFailIdx, hx] at hnone
      · intro j hj
        simp only [firstFailIdx, hx, ne_eq, not_false_eq_true, if_true,
          Option.some.injEq] at hj
        subst hj
        refine ⟨?_, ?_, [], runOne fm obs x, ?_, by simp, hx⟩
        · simp [runLoop, hx, List.take_succ_cons]
        · simp [runLoop, hx]
        · simp [runLoop, hx]

/-- C2.  Run-stage classification priority: the decision chain checks, in
order, non-zero (or absent) exit status, elapsed time over the limit,
memory over the limit, output size over the cap, missing required output
files, and stdout token mismatch, the first failed check deciding the
code and ACCEPTED otherwise; in particular a non-zero exit is
RUNTIME_ERROR whatever the stdout, while the same run with exit status 0
and mismatching stdout is WRONG_ANSWER. -/
theorem c2_run_classification_priority :
    (∀ (fm : ProblemMarkdownFrontMatter) (t : Rat) (r : SpawnResult) (oc : Nat)
       (exp : List Char), r.status ≠ some 0 →
       classifyRun fm t r oc exp = DecisionCode.RUNTIME_ERROR) ∧
    (∀ fm t r oc exp, r.status = some 0 → t < r.timeSeconds →
       classifyRun fm t r oc exp = DecisionCode.TIME_LIMIT_EXCEEDED) ∧
    (∀ fm t r oc exp, r.status = some 0 → ¬(t < r.timeSeconds) →
       memoryLimitExceeded fm r.memoryBytes = true →
       classifyRun fm t r oc exp = DecisionCode.MEMORY_LIMIT_EXCEEDED) ∧
    (∀ fm t r oc exp, r.status = some 0 → ¬(t < r.timeSeconds) →
       memoryLimitExceeded fm r.memoryBytes = false →
       (MAX_STDOUT_LENGTH < r.stdout.length ∨ MAX_STDOUT_LENGTH < r.stderr.length) →
       classifyRun fm t r oc exp = DecisionCode.OUTPUT_SIZE_LIMIT_EXCEEDED) ∧
    (∀ fm t r oc exp, r.status = some 0 → ¬(t < r.timeSeconds) →
       memoryLimitExceeded fm r.memoryBytes = false →
       ¬(MAX_STDOUT_LENGTH < r.stdout.length ∨ MAX_STDOUT_LENGTH < r.stderr.length) →
       oc < (fm.requiredOutputFilePaths.getD []).length →
       classifyRun fm t r oc exp = DecisionCode.MISSING_REQUIRED_OUTPUT_FILE_ERROR) ∧
    (∀ fm t r oc exp, r.status = some 0 → ¬(t < r.timeSeconds) →
       memoryLimitExceeded fm r.memoryBytes = false →
       ¬(MAX_STDOUT_LENGTH < r.stdout.length ∨ MAX_STDOUT_LENGTH < r.stderr.length) →
       ¬(oc < (fm.requiredOutputFilePaths.getD []).length) →
       compareStdoutAsSpaceSeparatedTokens r.stdout exp = false →
       classifyRun fm t r oc exp = DecisionCode.WRONG_ANSWER) ∧
    (∀ fm t r oc exp, r.status = some 0 → ¬(t < r.timeSeconds) →
       memoryLimitExceeded fm r.memoryBytes = false →
       ¬(MAX_STDOUT_LENGTH < r.stdout.length ∨ MAX_STDOUT_LENGTH < r.stderr.length) →
       ¬(oc < (fm.requiredOutputFilePaths.getD []).length) →
       compareStdoutAsSpaceSeparatedTokens r.stdout exp = true →
       classifyRun fm t r oc exp = DecisionCode.ACCEPTED) := by
  refine ⟨?_, ?_, ?_, ?_, ?_, ?_, ?_⟩
  · intro fm t r oc exp h1
    simp [classifyRun, h1]
  · intro fm t r oc exp h1 h2
    simp [classifyRun, h1, h2]
  · intro fm t r oc exp h1 h2 h3
    simp [classifyRun, h1, h2, h3]
  · intro fm t r oc exp h1 h2 h3 h4
    simp [classifyRun, h1, h2, h3, h4]
  · intro fm t r oc exp h1 h2 h3 h4 h5
    simp [classifyRun, h1, h2, h3, h4, h5]
  · intro fm t r oc exp h1 h2 h3 h4 h5 h6
    simp [classifyRun, h1, h2, h3, h4, h5, h6]
  · intro fm t r oc exp h1 h2 h3 h4 h5 h6
    simp [classifyRun, h1, h2, h3, h4, h5, h6]

/-- C8.  Echoed output truncation is independent of the size verdict: the
emitted stdout/stderr fields are the captured text cut to the fixed
50000-character cap (empty becoming absent), so they never exceed the
cap, while the OUTPUT_SIZE_LIMIT_EXCEEDED and
BUILD_OUTPUT_SIZE_LIMIT_EXCEEDED decisions compare the untruncated
lengths against the cap. -/
theorem c8_truncation_independent_of_verdict :
    (∀ (fm : ProblemMarkdownFrontMatter) (ob : RunObservation) (tc : TestCase),
       (runTestCase fm ob tc).stdout = emptyToNone (ob.spawn.stdout.take MAX_STDOUT_LENGTH) ∧
       (runTestCase fm ob tc).stderr = emptyToNone (ob.spawn.stderr.take MAX_STDOUT_LENGTH)) ∧
    (∀ fm ob tc s, (runTestCase fm ob tc).stdout = some s → s.length ≤ MAX_STDOUT_LENGTH) ∧
    (∀ fm ob tc, ob.spawn.status = some 0 →
       ¬(judgeTimeoutSeconds fm < ob.spawn.timeSeconds) →
       memoryLimitExceeded fm ob.spawn.memoryBytes = false →
       MAX_STDOUT_LENGTH < ob.spawn.stdout.length →
       (runTestCase fm ob tc).decisionCode = DecisionCode.OUTPUT_SIZE_LIMIT_EXCEEDED) ∧
    (∀ (id : List Char) (code : DecisionCode) (r : SpawnResult),
       (buildFailureResult id code r).stdout = emptyToNone (r.stdout.take MAX_STDOUT_LENGTH) ∧
       (buildFailureResult id code r).stderr = emptyToNone (r.stderr.take MAX_STDOUT_LENGTH)) ∧
    (∀ r : SpawnResult, r.status = some 0 → ¬(BUILD_TIMEOUT_SECONDS < r.timeSeconds) →
       MAX_STDOUT_LENGTH < r.stdout.length →
       classifyBuild r = DecisionCode.BUILD_OUTPUT_SIZE_LIMIT_EXCEEDED) := by
  refine ⟨?_, ?_, ?_, ?_, ?_⟩
  · intro fm ob tc
    exact ⟨rfl, rfl⟩
  · intro fm ob tc s h
    simp only [runTestCase, emptyToNone] at h
    split at h
    · cases h
    · rw [Option.some.injEq] at h
      subst h
      simp only [List.length_take]
      omega
  · intro fm ob tc h1 h2 h3 h4
    simp [runTestCase, classifyRun, h1, h2, h3, h4]
  · intro id code r
    exact ⟨rfl, rfl⟩
  · intro r h1 h2 h3
    simp [classifyBuild, h1, h2, h3]

/-! ## Claim theorems: tokenizer and static analyzer -/

/-- The spec's literal Java example input (§8). -/
def javaExampleInput : String :=
  "/** doc */\npublic class Main \x7b\n  // hi\n  System.out.println(\"// Not a comment\");\n\x7d\n"

/-- The spec's expected stripped output for the Java example. -/
def javaExampleExpected : String :=
  "\npublic class Main \x7b\n  System.out.println(\"// Not a comment\");\n\x7d\n"

/-- C3.  On the spec's literal Java example, the tokenizer with the C-like
grammar removes both comments and keeps the string literal containing a
comment-open sequence byte-identical. -/
theorem c3_java_example :
    removeCommentsInSourceCode cLikeGrammer javaExampleInput.toList =
      javaExampleExpected.toList := by
  decide

/-- C4.  Forbidden-pattern short-circuit: whenever the forbidden table is
nonempty the analyzer returns the FORBIDDEN verdict carrying exactly that
table, the required rules never influence the outcome, and the literal
rows are the greedy non-overlapping occurrence list — each reported
position is an occurrence, consecutive reports advance by at least the
pattern length, and every occurrence overlaps a reported one. -/
theorem c4_forbidden_short_circuit (oracle : RegexOracle) (fm : ProblemMarkdownFrontMatter)
    (files : List DirEnt) (founds : List Found)
    (hf : forbiddenFoundsT oracle fm (sourceCodeWithoutCommentFiles files) = some founds)
    (hne : founds ≠ []) :
    judgeByStaticAnalysisT oracle fm files = some (some (.forbidden founds)) ∧
    (∀ req1 req2 : Option (List (List Char)),
      judgeByStaticAnalysisT oracle { fm with requiredRegExpsInCode := req1 } files =
        judgeByStaticAnalysisT oracle { fm with requiredRegExpsInCode := req2 } files) ∧
    (∀ (pat data : List Char) (ps : List Nat), pat ≠ [] →
      literalScanLoop pat data (data.length + 1) 0 = some ps →
      (∀ q ∈ ps, pat.isPrefixOf (data.drop q) = true) ∧
      List.Chain' (fun a b => a + pat.length ≤ b) ps ∧
      (∀ q, pat.isPrefixOf (data.drop q) = true → ∃ r ∈ ps, r ≤ q ∧ q < r + pat.length)) := by
  refine ⟨?_, ?_, ?_⟩
  · simp [judgeByStaticAnalysisT, hf, hne]
  · intro req1 req2
    have hf1 : forbiddenFoundsT oracle { fm with requiredRegExpsInCode := req1 }
        (sourceCodeWithoutCommentFiles files) = some founds := hf
    have hf2 : forbiddenFoundsT oracle { fm with requiredRegExpsInCode := req2 }
        (sourceCodeWithoutCommentFiles files) = some founds := hf
    simp [judgeByStaticAnalysisT, hf1, hf2, hne]
  · intro pat data ps hp hps
    obtain ⟨hsound, hchain, hcomplete⟩ := literalScanLoop_spec hp (data.length + 1) 0 ps hps
    exact ⟨fun q hq => (hsound q hq).2, hchain,
      fun q hq => hcomplete q (Nat.zero_le q) hq⟩

/-- C9.  Tokenizer identity: with no comment rules the tokenizer returns
the input unchanged (the source short-circuits before scanning), and more
generally any completed scan that never selects a comment rule returns
the input unchanged (plain text and string spans are appended
verbatim). -/
theorem c9_tokenizer_identity :
    (∀ (g : Grammer) (s : List Char), g.comments = [] →
      removeCommentsInSourceCode g s = s) ∧
    (∀ (g : Grammer) (s out : List Char) (flags : List Bool),
      removeCommentsInSourceCodeT g s = (out, flags) → (∀ b ∈ flags, b = false) →
      out = s) := by
  constructor
  · intro g s h
    simp [removeCommentsInSourceCode, removeCommentsInSourceCodeT, h]
  · intro g s out flags h hflags
    unfold removeCommentsInSourceCodeT at h
    split at h
    · rw [Prod.mk.injEq] at h
      exact h.1.symm
    · have := scanLoop_no_comment g s (s.length + 1) 0 out flags h (by omega) hflags
      simpa using this

/-- C10.  Termination of the forbidden-literal scan: with a nonempty
pattern the loop finishes within `data.length + 1` iterations for every
file, while with an empty pattern (on any nonempty file) `indexOf`
returns the current position, the position never advances, and no amount
of fuel completes the loop — the JS loop does not terminate. -/
theorem c10_literal_scan_termination :
    (∀ pat data : List Char, pat ≠ [] → ∀ fuel, data.length + 1 ≤ fuel →
      (literalScanLoop pat data fuel 0).isSome = true) ∧
    (∀ data : List Char, data ≠ [] → ∀ fuel, literalScanLoop [] data fuel 0 = none) := by
  constructor
  · intro pat data hp fuel hfuel
    exact literalScanLoop_total hp fuel 0 (by omega) (by omega)
  · intro data hd fuel
    exact literalScanLoop_empty_pat fuel 0 (List.length_pos.mpr hd)

/-! ## Claim theorems: orchestrator stage order -/

/-- A submission directory entry for exercising the stage order: a text
file containing a forbidden literal. -/
def c5File : DirEnt :=
  { name := "a.txt".toList, text := "forbidden".toList }

/-- A world whose submission contains a forbidden pattern and has no
resolvable entry file. -/
def c5World : JudgeWorld :=
  { frontMatter := { forbiddenTextsInCode := some ["forbidden".toList] },
    submissionFiles := [c5File],
    entryPoint := none }

/-- C5 counterexample: on a submission that both contains a forbidden
pattern and lacks a resolvable entry file, `stdioJudgePreset` emits the
FORBIDDEN_PATTERNS verdict, not the entry-resolution failure — static
analysis runs before entry resolution, refuting the claimed
RESOLVE_ENTRY-first order. -/
theorem c5_counterexample :
    stdioJudgePreset c5World =
      some [{ testCaseId := "prebuild".toList,
              decisionCode := DecisionCode.FORBIDDEN_PATTERNS_IN_CODE_ERROR,
              feedback := some (.forbidden
                [{ pattern := "forbidden".toList, path := "a.txt".toList,
                   matched := "forbidden".toList }]) }] ∧
    DecisionCode.FORBIDDEN_PATTERNS_IN_CODE_ERROR ≠
      DecisionCode.MISSING_REQUIRED_SUBMISSION_FILE_ERROR := by
  constructor
  · decide
  · decide

/-- C5 amended: static analysis is the first stage of `stdioJudgePreset`;
whenever it yields a verdict, that verdict is the single emitted result,
regardless of whether an entry file resolves — so a submission that both
lacks an entry file and contains a forbidden pattern gets
FORBIDDEN_PATTERNS, not the missing-entry verdict. -/
theorem c5_static_analysis_first (w : JudgeWorld) (v : StaticVerdict)
    (h : judgeByStaticAnalysisT w.regexOracle w.frontMatter w.submissionFiles =
      some (some v)) :
    stdioJudgePreset w = some [staticAnalysisResult w.testCases v] := by
  unfold stdioJudgePreset
  rw [h]

/-- C5 witness input applied to the amended theorem. -/
theorem c5_witness :
    stdioJudgePreset c5World =
      some [staticAnalysisResult c5World.testCases (.forbidden
        [{ pattern := "forbidden".toList, path := "a.txt".toList,
           matched := "forbidden".toList }])] :=
  c5_static_analysis_first c5World _ (by decide)

/-- A world whose entry file resolves to an extension outside the
catalog. -/
def c6World : JudgeWorld :=
  { entryPoint := some ("main.xyz".toList) }

/-- C6 counterexample: with a resolved entry file whose extension matches
no catalog entry, the emitted decision code is WRONG_ANSWER (with stderr
"unsupported language"), not an UNSUPPORTED_LANGUAGE code. -/
theorem c6_counterexample :
    stdioJudgePreset c6World = some [unsupportedLanguageResult []] ∧
    (unsupportedLanguageResult []).decisionCode = DecisionCode.WRONG_ANSWER ∧
    (unsupportedLanguageResult []).decisionCode ≠ DecisionCode.UNSUPPORTED_LANGUAGE := by
  refine ⟨by decide, by decide, by decide⟩

/-- C6 amended: when static analysis passes and the resolved entry file's
extension matches no catalog entry, the orchestrator terminates emitting
exactly one result, whose decision code is WRONG_ANSWER and whose stderr
is "unsupported language". -/
theorem c6_unsupported_language (w : JudgeWorld) (entry : List Char)
    (h1 : judgeByStaticAnalysisT w.regexOracle w.frontMatter w.submissionFiles = some none)
    (h2 : w.entryPoint = some entry)
    (h3 : findLanguageDefinitionByPath entry = none) :
    stdioJudgePreset w = some [unsupportedLanguageResult w.testCases] ∧
    (unsupportedLanguageResult w.testCases).decisionCode = DecisionCode.WRONG_ANSWER ∧
    (unsupportedLanguageResult w.testCases).stderr =
      some ("unsupported language".toList) := by
  refine ⟨?_, rfl, rfl⟩
  simp [stdioJudgePreset, h1, h2, h3]

/-- C6 witness input applied to the amended theorem. -/
theorem c6_witness :
    stdioJudgePreset c6World = some [unsupportedLanguageResult c6World.testCases] :=
  (c6_unsupported_language c6World ("main.xyz".toList) (by decide) rfl (by decide)).1

/-! ## Claim theorems: static-analyzer file coverage -/

/-- A non-binary regular file whose extension matches no catalog entry,
containing a forbidden literal. -/
def c7File : DirEnt :=
  { name := "notes.xyz".toList, text := "forbidden".toList }

/-- A configuration forbidding the literal contained in `c7File`. -/
def c7Config : ProblemMarkdownFrontMatter :=
  { forbiddenTextsInCode := some ["forbidden".toList] }

/-- C7 counterexample: a non-binary regular file whose extension matches
no catalog entry is excluded from the scan — the scanned-file list is
empty and the forbidden literal it contains produces no verdict —
refuting the claim that such a file is scanned as raw text. -/
theorem c7_counterexample :
    c7File.isFile = true ∧
    isBinaryText c7File.text = false ∧
    findLanguageDefinitionByPath c7File.name = none ∧
    sourceCodeWithoutCommentFiles [c7File] = [] ∧
    judgeByStaticAnalysisT (fun _ _ => []) c7Config [c7File] = some none := by
  decide

/-- C7 amended: the scanned-file list consists exactly of the regular,
non-binary files whose extension matches a catalog entry — such a file is
scanned with comments stripped when the entry has a grammar and as raw
text otherwise, while a file matching no entry is skipped. -/
theorem c7_file_coverage (files : List DirEnt) :
    (∀ d ∈ files, d.isFile = true → isBinaryText d.text = false →
      ∀ ld, findLanguageDefinitionByPath d.name = some ld →
        ({ path := d.name,
           data := match ld.grammer with
                   | some g => removeCommentsInSourceCode g d.text
                   | none => d.text } : ScannedFile) ∈
          sourceCodeWithoutCommentFiles files) ∧
    (∀ f ∈ sourceCodeWithoutCommentFiles files, ∃ d ∈ files, d.isFile = true ∧
      isBinaryText d.text = false ∧ ∃ ld, findLanguageDefinitionByPath d.name = some ld ∧
        f = { path := d.name,
              data := match ld.grammer with
                      | some g => removeCommentsInSourceCode g d.text
                      | none => d.text }) := by
  constructor
  · intro d hd hfile hbin ld hld
    unfold sourceCodeWithoutCommentFiles
    rw [List.mem_filterMap]
    refine ⟨d, hd, ?_⟩
    simp [hfile, hbin, hld]
  · intro f hf
    unfold sourceCodeWithoutCommentFiles at hf
    rw [List.mem_filterMap] at hf
    obtain ⟨d, hd, hsome⟩ := hf
    split at hsome
    · cases hsome
    · split at hsome
      · cases hsome
      · rename_i hfile hbin
        split at hsome
        · cases hsome
        · rename_i ld hld
          rw [Option.some.injEq] at hsome
          refine ⟨d, hd, ?_, ?_, ld, hld, hsome.symm⟩
          · simpa using hfile
          · simpa using hbin

/-- C7 witness input applied to the amended theorem: a text file matching
the grammarless `.txt` catalog entry is scanned raw. -/
theorem c7_witness :
    ({ path := "m.txt".toList, data := "hello".toList } : ScannedFile) ∈
      sourceCodeWithoutCommentFiles
        [{ name := "m.txt".toList, text := "hello".toList }] := by
  have h := (c7_file_coverage [{ name := "m.txt".toList, text := "hello".toList }]).1
    { name := "m.txt".toList, text := "hello".toList } (by simp) rfl (by decide)
    { fileExtensions := [".txt".toList] } (by decide)
  simpa using h

/-! ## Witnesses -/

/-- Three indexed test cases for the fail-fast witness. -/
def c1List : List (Nat × TestCase) :=
  [(0, { id := "a".toList, stdout := some ("1".toList) }),
   (1, { id := "b".toList, stdout := some ("2".toList) }),
   (2, { id := "c".toList, stdout := some ("3".toList) })]

/-- Run observations making the second test case fail with wrong
stdout. -/
def c1Obs : Nat → RunObservation := fun i =>
  { spawn := { stdout := (if i = 0 then "1" else if i = 1 then "9" else "3").toList } }

/-- Run observations making every test case pass. -/
def c1ObsOk : Nat → RunObservation := fun i =>
  { spawn := { stdout := (if i = 0 then "1" else if i = 1 then "2" else "3").toList } }

/-- C1 witness: with the second of three test cases failing the stream is
the first two results; with none failing it is all three. -/
theorem c1_witness :
    (runLoop {} c1Obs c1List = (c1List.take 2).map (runOne {} c1Obs) ∧
      (runLoop {} c1Obs c1List).length = 2) ∧
    runLoop {} c1ObsOk c1List = c1List.map (runOne {} c1ObsOk) := by
  refine ⟨⟨?_, ?_⟩, ?_⟩
  · exact ((c1_fail_fast {} c1Obs c1List).2 1 (by decide)).1
  · exact ((c1_fail_fast {} c1Obs c1List).2 1 (by decide)).2.1
  · exact ((c1_fail_fast {} c1ObsOk c1List).1 (by decide)).1

/-- C2 witness: exit status 1 with wrong stdout is RUNTIME_ERROR, the
same run with exit status 0 is WRONG_ANSWER. -/
theorem c2_witness :
    classifyRun {} 2 { status := some 1, stdout := "9".toList } 0 ("1".toList) =
      DecisionCode.RUNTIME_ERROR ∧
    classifyRun {} 2 { status := some 0, stdout := "9".toList } 0 ("1".toList) =
      DecisionCode.WRONG_ANSWER :=
  ⟨c2_run_classification_priority.1 {} 2 _ 0 _ (by decide),
   c2_run_classification_priority.2.2.2.2.2.1 {} 2 _ 0 _ rfl (by decide) rfl (by decide)
     (by decide) (by decide)⟩

/-- C4 witness: a forbidden literal present twice in one file is reported
twice and yields the FORBIDDEN verdict. -/
def c4Config : ProblemMarkdownFrontMatter :=
  { forbiddenTextsInCode := some ["ab".toList] }

/-- The scanned submission for the C4 witness. -/
def c4Files : List DirEnt :=
  [{ name := "m.txt".toList, text := "ab ab".toList }]

/-- C4 witness applied to the short-circuit theorem. -/
theorem c4_witness :
    judgeByStaticAnalysisT (fun _ _ => []) c4Config c4Files =
      some (some (.forbidden
        [{ pattern := "ab".toList, path := "m.txt".toList, matched := "ab".toList },
         { pattern := "ab".toList, path := "m.txt".toList, matched := "ab".toList }])) :=
  (c4_forbidden_short_circuit (fun _ _ => []) c4Config c4Files _ (by decide) (by decide)).1

/-- A run observation with stdout one character over the cap. -/
def c8Ob : RunObservation :=
  { spawn := { stdout := List.replicate 50001 'a' } }

/-- C8 witness: a run whose untruncated stdout exceeds the cap gets the
size-limit verdict while its echoed stdout is the truncated text. -/
theorem c8_witness :
    (runTestCase {} c8Ob { id := "t".toList }).decisionCode =
      DecisionCode.OUTPUT_SIZE_LIMIT_EXCEEDED ∧
    (runTestCase {} c8Ob { id := "t".toList }).stdout =
      emptyToNone ((List.replicate 50001 'a').take MAX_STDOUT_LENGTH) := by
  constructor
  · refine c8_truncation_independent_of_verdict.2.2.1 {} c8Ob { id := "t".toList } rfl
      (by decide) rfl ?_
    have hs : c8Ob.spawn.stdout = List.replicate 50001 'a' := rfl
    rw [hs, List.length_replicate]
    decide
  · exact (c8_truncation_independent_of_verdict.1 {} c8Ob { id := "t".toList }).1

/-- A grammar with one comment rule and one string rule, for the C9
witness. -/
def c9Grammer : Grammer :=
  { strings := [⟨.literalPat '"' [], .stringClosePat '"' []⟩],
    comments := [⟨.commentOpenPat '/' ['/'], none⟩] }

/-- C9 witness: the empty grammar is the identity, and a scan that only
selects string rules returns the input unchanged. -/
theorem c9_witness :
    removeCommentsInSourceCode ({} : Grammer) ("abc".toList) = "abc".toList ∧
    (removeCommentsInSourceCodeT c9Grammer ("ab\"cd\"e".toList)).1 =
      "ab\"cd\"e".toList :=
  ⟨c9_tokenizer_identity.1 {} ("abc".toList) rfl,
   c9_tokenizer_identity.2 c9Grammer ("ab\"cd\"e".toList) _ _ rfl (by decide)⟩

/-- C10 witness: a nonempty pattern's scan completes within the canonical
fuel; the empty pattern's scan completes under no fuel. -/
theorem c10_witness :
    (literalScanLoop ("ab".toList) ("xabab".toList) 6 0).isSome = true ∧
    literalScanLoop [] ("x".toList) 9 0 = none :=
  ⟨c10_literal_scan_termination.1 ("ab".toList) ("xabab".toList) (by decide) 6 (by decide),
   c10_literal_scan_termination.2 ("x".toList) (by decide) 9⟩

end JudgeUtils
